import Mathlib

/-
Verification of the LunarCrush sheet-updater (src/v1.py) against its
specification. The Python program's JSON values are modelled by the
inductive type `Val` (Python `None` / `bool` / `int` / `str` / `list` /
`dict`, with dicts as insertion-ordered association lists, matching
CPython's ordered dicts). Numeric JSON values are modelled as integers;
no claim depends on float arithmetic. Each definition below transcribes
one function of src/v1.py; the sheet itself is modelled by the data the
program reads from it (header row, identity column) and the rows it
writes.
-/

set_option autoImplicit false

namespace LunarCrush

/-- A Python/JSON value as handled by src/v1.py: None, bool, int, str,
list, or insertion-ordered dict (association list of string keys). -/
inductive Val : Type where
  | none : Val
  | bool : Bool → Val
  | int : Int → Val
  | str : String → Val
  | list : List Val → Val
  | dict : List (String × Val) → Val

/-- First value bound to key `k` in an association-list dict
(Python `k in d` / `d[k]`; keys are unique in dicts produced by JSON
parsing, and first-match lookup agrees with CPython on duplicates). -/
def dget : List (String × Val) → String → Option Val
  | [], _ => Option.none
  | (k', v) :: rest, k => if k' = k then some v else dget rest k

/-- Python `d.get(k, dflt)`. -/
def dgetD (kvs : List (String × Val)) (k : String) (dflt : Val) : Val :=
  match dget kvs k with
  | some v => v
  | Option.none => dflt

/-- Python `d[k] = v` on an insertion-ordered dict: replace the value at
an existing key in place, else append the new binding at the end. -/
def dset : List (String × Val) → String → Val → List (String × Val)
  | [], k, v => [(k, v)]
  | (k', v') :: rest, k, v =>
      if k' = k then (k', v) :: rest else (k', v') :: dset rest k v

/-- Python truthiness of a value (`bool(v)`). -/
def truthy : Val → Bool
  | Val.none => false
  | Val.bool b => b
  | Val.int n => decide (n ≠ 0)
  | Val.str s => decide (s ≠ "")
  | Val.list xs => !xs.isEmpty
  | Val.dict kvs => !kvs.isEmpty

/-- Python `isinstance(v, (int, float, str, bool))`, the scalar test used
throughout src/v1.py. -/
def isScalar : Val → Bool
  | Val.bool _ => true
  | Val.int _ => true
  | Val.str _ => true
  | _ => false

/-- Lowercase hexadecimal digit, for JSON control-character escapes. -/
def hexDigit (n : Nat) : Char :=
  if n < 10 then Char.ofNat (48 + n) else Char.ofNat (87 + n)

/-- JSON string escaping as performed by `json.dumps(..., ensure_ascii=False)`:
quote, backslash and control characters are escaped, everything else is
emitted verbatim. -/
def jsonEscapeChar (c : Char) : String :=
  if c = '"' then "\\\""
  else if c = '\\' then "\\\\"
  else if c = '\n' then "\\n"
  else if c = '\r' then "\\r"
  else if c = '\t' then "\\t"
  else if c = Char.ofNat 8 then "\\b"
  else if c = Char.ofNat 12 then "\\f"
  else if c.toNat < 32 then
    "\\u00" ++ String.singleton (hexDigit (c.toNat / 16))
            ++ String.singleton (hexDigit (c.toNat % 16))
  else String.singleton c

/-- Escape a whole string for a JSON string literal. -/
def jsonEscape (s : String) : String :=
  s.data.foldl (fun acc c => acc ++ jsonEscapeChar c) ""

mutual

/-- Python `json.dumps(v, ensure_ascii=False)` on a `Val` (default
separators: item separator a comma and a space, key separator a colon and
a space). On values of this model `json.dumps` never raises, so the
`except` fallbacks to `str(...)` in src/v1.py are unreachable. -/
def jsonDumps : Val → String
  | Val.none => "null"
  | Val.bool b => if b then "true" else "false"
  | Val.int n => toString n
  | Val.str s => "\"" ++ jsonEscape s ++ "\""
  | Val.list xs => "[" ++ jsonDumpsList xs ++ "]"
  | Val.dict kvs => "\x7b" ++ jsonDumpsDict kvs ++ "\x7d"

/-- Comma-and-space separated serialization of list elements. -/
def jsonDumpsList : List Val → String
  | [] => ""
  | [x] => jsonDumps x
  | x :: y :: rest => jsonDumps x ++ ", " ++ jsonDumpsList (y :: rest)

/-- Comma-and-space separated serialization of dict entries. -/
def jsonDumpsDict : List (String × Val) → String
  | [] => ""
  | [(k, v)] => "\"" ++ jsonEscape k ++ "\": " ++ jsonDumps v
  | (k, v) :: e :: rest =>
      "\"" ++ jsonEscape k ++ "\": " ++ jsonDumps v ++ ", " ++ jsonDumpsDict (e :: rest)

end

/-- `safe_str` (src/v1.py lines 79-87): None becomes the empty string,
scalars go through Python `str(...)`, anything else through
`json.dumps(..., ensure_ascii=False)` (which never raises here). -/
def safe_str : Val → String
  | Val.none => ""
  | Val.str s => s
  | Val.int n => toString n
  | Val.bool b => if b then "True" else "False"
  | Val.list xs => jsonDumps (Val.list xs)
  | Val.dict kvs => jsonDumps (Val.dict kvs)

/-- `MAX_CELL_LENGTH` (src/v1.py line 38). -/
def MAX_CELL_LENGTH : Nat := 50000

/-- `is_too_large` (src/v1.py lines 90-91). -/
def is_too_large (s : String) : Bool :=
  decide (s.length > MAX_CELL_LENGTH)

/-- `get_nested` (src/v1.py lines 94-104): walk a key path, returning the
default as soon as a segment is missing or the current value is not a
dict; the surrounding `try` never fires. -/
def get_nested (d : Val) (path : List String) (dflt : Val) : Val :=
  match path with
  | [] => d
  | p :: rest =>
    match d with
    | Val.dict kvs =>
      match dget kvs p with
      | some v => get_nested v rest dflt
      | Option.none => dflt
    | _ => dflt

/-- The fixed ordered list of conventional sub-keys tried by
`pick_scalar_from_metric_obj` (src/v1.py line 234). -/
def CONVENTIONAL_SUBKEYS : List String :=
  ["value", "current", "count", "latest", "v", "val"]

/-- First conventional sub-key present in the dict with a scalar value
(the first loop of `pick_scalar_from_metric_obj`, lines 234-236). -/
def firstConventionalScalar (kvs : List (String × Val)) : List String → Option Val
  | [] => Option.none
  | c :: rest =>
    match dget kvs c with
    | some v => if isScalar v then some v else firstConventionalScalar kvs rest
    | Option.none => firstConventionalScalar kvs rest

/-- First entry of the dict whose value is scalar, in insertion order
(the second loop of `pick_scalar_from_metric_obj`, lines 237-239). -/
def firstScalarEntry : List (String × Val) → Option Val
  | [] => Option.none
  | (_, v) :: rest => if isScalar v then some v else firstScalarEntry rest

/-- `pick_scalar_from_metric_obj` (src/v1.py lines 228-251). Returns
Python `None` (here `Val.none`) when nothing is picked; `json.dumps`
never raises on these values, so the `except` fallbacks are dead. -/
def pick_scalar_from_metric_obj : Val → Val
  | Val.none => Val.none
  | Val.bool b => Val.bool b
  | Val.int n => Val.int n
  | Val.str s => Val.str s
  | Val.dict kvs =>
    match firstConventionalScalar kvs CONVENTIONAL_SUBKEYS with
    | some v => v
    | Option.none =>
      match firstScalarEntry kvs with
      | some v => v
      | Option.none => Val.str (jsonDumps (Val.dict kvs))
  | Val.list [] => Val.none
  | Val.list (x :: xs) =>
    if isScalar x then x else Val.str (jsonDumps (Val.list (x :: xs)))

mutual

/-- `find_first_key_recursive` (src/v1.py lines 212-225). A dict owning
the key returns its value directly, even a Python `None` — which the
caller one level up then treats as not-found and keeps searching, exactly
as the source does. -/
def find_first_key_recursive (obj : Val) (key : String) : Val :=
  match obj with
  | Val.dict kvs =>
    match dget kvs key with
    | some v => v
    | Option.none => findKeyInEntries kvs key
  | Val.list xs => findKeyInItems xs key
  | _ => Val.none

/-- Search the values of a dict, in order, for the first non-None result. -/
def findKeyInEntries (kvs : List (String × Val)) (key : String) : Val :=
  match kvs with
  | [] => Val.none
  | (_, v) :: rest =>
    match find_first_key_recursive v key with
    | Val.none => findKeyInEntries rest key
    | f => f

/-- Search the items of a list, in order, for the first non-None result. -/
def findKeyInItems (xs : List Val) (key : String) : Val :=
  match xs with
  | [] => Val.none
  | x :: rest =>
    match find_first_key_recursive x key with
    | Val.none => findKeyInItems rest key
    | f => f

end

/-- `append_new_headers` (src/v1.py lines 160-173). The Boolean of the
result records whether the sheet's header row was written (`ws.update`);
when nothing is missing the function returns its input and performs no
store write. -/
def append_new_headers (current_headers : List String) (new_headers : List String) :
    List String × Bool :=
  let missing := new_headers.filter (fun h => decide (h ∉ current_headers))
  if missing.isEmpty then (current_headers, false)
  else (current_headers ++ missing, true)

/-- Header state reached from `init` by a sequence of reconcile calls,
one candidate list per call. -/
def reconcile_seq (init : List String) (cands : List (List String)) : List String :=
  cands.foldl (fun cur cand => (append_new_headers cur cand).1) init

/-- Python `s.strip()`: drop leading and trailing whitespace, modelled
over the character list. -/
def pyStrip (s : String) : String :=
  String.mk (((s.data.dropWhile Char.isWhitespace).reverse.dropWhile
    Char.isWhitespace).reverse)

/-- Python `s.lower()` (ASCII case folding, as ticker symbols use). -/
def pyLower (s : String) : String :=
  String.mk (s.data.map Char.toLower)

/-- Python `v.strip().lower()`, the normalization used on both sides of
the ticker comparison in `find_row_for_ticker` (line 180). -/
def norm_ticker (s : String) : String := pyLower (pyStrip s)

/-- Scan rows (1-based index `idx` for the head) for the first normalized
match. -/
def find_row_aux (rows : List String) (key : String) (idx : Nat) : Option Nat :=
  match rows with
  | [] => Option.none
  | v :: rest =>
    if norm_ticker v = key then some idx else find_row_aux rest key (idx + 1)

/-- `find_row_for_ticker` (src/v1.py lines 176-185): scan the identity
column (`col_a`, the list gspread returns for column A, trailing empties
trimmed) from `start_row` downward, first case-insensitive match wins. -/
def find_row_for_ticker (col_a : List String) (ticker : String) (start_row : Nat) :
    Option Nat :=
  find_row_aux (col_a.drop (start_row - 1)) (norm_ticker ticker) start_row

/-- `write_row_by_header_order` (src/v1.py lines 188-208), projecting a
values map through the header. The first component is the list of cells
passed to `ws.update` — the `ticker` column receives the raw map value
with neither `safe_str` nor the oversize check, every other column its
serialization or the empty string when oversized. The second component
lists the headers for which the oversize warning was logged; nothing in
the cell loop raises, so the row is never truncated or rejected. -/
def write_row_by_header_order (headers : List String) (values_map : List (String × Val)) :
    List Val × List String :=
  match headers with
  | [] => ([], [])
  | h :: rest =>
    let p := write_row_by_header_order rest values_map
    if h = "ticker" then (dgetD values_map "ticker" (Val.str "") :: p.1, p.2)
    else if is_too_large (safe_str (dgetD values_map h (Val.str ""))) then
      (Val.str "" :: p.1, h :: p.2)
    else (Val.str (safe_str (dgetD values_map h (Val.str ""))) :: p.1, p.2)

/-- Row construction of the append paths of `run_once` (src/v1.py lines
581-588 and line 602): every column, the ticker included, is serialized
with `safe_str` and blanked when oversized. -/
def append_row_vals (headers : List String) (values_map : List (String × Val)) :
    List String :=
  headers.map (fun h =>
    let s := safe_str (dgetD values_map h (Val.str ""))
    if is_too_large s then "" else s)

/-- `REQUIRED_FIXED_HEADERS` is not needed by any claim; the dynamic-key
lists are. `METRIC_TRENDS_KEYS` (src/v1.py lines 318-322). -/
def METRIC_TRENDS_KEYS : List String :=
  ["contributors_active", "contributors_created", "interactions", "posts_active",
   "posts_created", "sentiment", "spam", "alt_rank", "circulating_supply", "close",
   "galaxy_score", "market_cap", "market_dominance", "social_dominance", "volume_24h"]

/-- The fourteen `data.<key>` count fields copied by the first loop of
`build_values_map_for_ticker` (src/v1.py lines 356-363). -/
def DATA_COUNT_KEYS : List String :=
  ["sentiment_positive_posts", "sentiment_positive_interactions",
   "sentiment_neutral_posts", "sentiment_neutral_interactions",
   "sentiment_negative_posts", "sentiment_negative_interactions",
   "posts_active", "posts_active_prev", "posts_created", "posts_created_prev",
   "contributors_active", "contributors_active_prev",
   "contributors_created", "contributors_created_prev"]

/-- The `asset` fields flattened into `asset_<field>` columns
(src/v1.py lines 390-417). -/
def ASSET_FIELDS : List String :=
  ["id", "name", "symbol", "price", "price_btc", "market_cap", "market_dominance",
   "percent_change_1h", "percent_change_24h", "percent_change_7d", "percent_change_30d",
   "volume_24h", "max_supply", "circulating_supply", "categories", "close",
   "interactions_24h", "galaxy_score", "alt_rank", "volatility", "market_cap_rank",
   "social_dominance", "price_all_time_high", "price_all_time_high_date",
   "price_52_week_high", "price_52_week_high_date", "price_52_week_low",
   "price_52_week_low_date"]

/-- The `metric_trends` location logic of `build_values_map_for_ticker`
(src/v1.py lines 425-427), factored out verbatim. Python `x or y`
returns `y` whenever `x` is falsy, so a falsy root value (`None` but also
an empty dict, empty list, zero or empty string) is skipped in favour of
`data.metric_trends`; the recursive search runs only when the combined
result is exactly `None`. -/
def locate_metric_trends (j : List (String × Val)) : Val :=
  let root := dgetD j "metric_trends" Val.none
  let mt := if truthy root then root
            else get_nested (Val.dict j) ["data", "metric_trends"] Val.none
  match mt with
  | Val.none => find_first_key_recursive (Val.dict j) "metric_trends"
  | v => v

/-- `build_values_map_for_ticker` (src/v1.py lines 352-450). The document
`j` is a dict, as the call site guarantees. The second argument is the
`change_interval_keys` parameter of the source, which the body never
reads; the third is the module global `change_interval_keys_local`
(declared at line 454) that the loop at line 444 actually iterates. -/
def build_values_map_for_ticker (j : List (String × Val))
    (change_interval_keys : List String) (change_interval_keys_local : List String) :
    List (String × Val) :=
  let jv := Val.dict j
  let m : List (String × Val) := []
  let m := DATA_COUNT_KEYS.foldl
    (fun m key => dset m key (get_nested jv ["data", key] Val.none)) m
  let m := dset m "alerts" (get_nested jv ["data", "alerts"] (Val.list []))
  let aiSummary := get_nested jv ["data", "ai_summary"] (Val.dict [])
  let m := dset m "ai_summary" aiSummary
  let m := dset m "ai_summary_supportive"
    (match aiSummary with
     | Val.dict kvs => dgetD kvs "supportive" Val.none
     | _ => Val.list [])
  let m := dset m "types_count" (get_nested jv ["data", "types_count"] (Val.dict []))
  let m := dset m "types_eng" (get_nested jv ["data", "types_eng"] (Val.dict []))
  let m := dset m "types_sentiment" (get_nested jv ["data", "types_sentiment"] (Val.dict []))
  let st := get_nested jv ["data", "sentiment_types"] (Val.dict [])
  let m :=
    match st with
    | Val.dict kvs =>
      let m := dset m "sentiment_types_tweet" (dgetD kvs "tweet" (Val.dict []))
      let m := dset m "sentiment_types_youtube-video" (dgetD kvs "youtube-video" (Val.dict []))
      let m := dset m "sentiment_types_tiktok-video" (dgetD kvs "tiktok-video" (Val.dict []))
      dset m "sentiment_types_reddit-post" (dgetD kvs "reddit-post" (Val.dict []))
    | _ =>
      let m := dset m "sentiment_types_tweet" (Val.dict [])
      let m := dset m "sentiment_types_youtube-video" (Val.dict [])
      let m := dset m "sentiment_types_tiktok-video" (Val.dict [])
      dset m "sentiment_types_reddit-post" (Val.dict [])
  let assetRaw := dgetD j "asset" Val.none
  let asset := if truthy assetRaw then assetRaw
               else get_nested jv ["data", "asset"] (Val.dict [])
  let m := ASSET_FIELDS.foldl
    (fun m f => dset m ("asset_" ++ f) (get_nested asset [f] Val.none)) m
  let m := dset m "interactions_24h" (get_nested jv ["data", "interactions_24h"] Val.none)
  let m := dset m "interactions_24h_prev" (get_nested jv ["data", "interactions_24h_prev"] Val.none)
  let m := dset m "whatsup" (get_nested jv ["data", "whatsup"] Val.none)
  let m :=
    match locate_metric_trends j with
    | Val.dict kvs =>
      METRIC_TRENDS_KEYS.foldl
        (fun m k => dset m ("metric_trends_" ++ k)
          (pick_scalar_from_metric_obj (dgetD kvs k Val.none))) m
    | _ =>
      match get_nested jv ["data", "change_intervals"] (Val.dict []) with
      | Val.dict ci =>
        METRIC_TRENDS_KEYS.foldl
          (fun m k => dset m ("metric_trends_" ++ k) (dgetD ci k Val.none)) m
      | _ =>
        METRIC_TRENDS_KEYS.foldl
          (fun m k => dset m ("metric_trends_" ++ k) Val.none) m
  let ci := get_nested jv ["data", "change_intervals"] (Val.dict [])
  let m := change_interval_keys_local.foldl
    (fun m ck => dset m ("change_intervals_" ++ ck)
      (match ci with
       | Val.dict kvs => dgetD kvs ck Val.none
       | _ => Val.none)) m
  m

/-- `max(4, len(data_ws.col_values(1)) + 1)` — the row chosen by
`run_once` for an appended ticker (src/v1.py lines 531 and 579). -/
def append_target_row (colA : List String) : Nat := max 4 (colA.length + 1)

/-- Row targeted by the upsert of `run_once` (lines 571-592): the row of
the first case-insensitive match when the ticker is present (`true` =
overwrite in place), else the append row (`false` = append). -/
def upsert_row_target (colA : List String) (t : String) : Nat × Bool :=
  match find_row_for_ticker colA t 4 with
  | some r => (r, true)
  | Option.none => (append_target_row colA, false)

/-- Effect of the upsert on the identity column: the write at row `r`
puts the ticker string itself in column A (the values map of `run_once`
has `values_map["ticker"] = t`, line 568, and `write_row_by_header_order`
copies it raw), so an overwrite sets cell `r` and an append extends the
column — padded with empty cells up to the target row when the column was
shorter than the three reserved rows. -/
def upsert_colA (colA : List String) (t : String) : List String :=
  match find_row_for_ticker colA t 4 with
  | some r => colA.set (r - 1) t
  | Option.none =>
      colA ++ List.replicate (append_target_row colA - 1 - colA.length) "" ++ [t]

/-- Largest 1-based row index of a non-empty cell in the column, 0 when
every cell is empty. -/
def lastPopulatedRow : List String → Nat
  | [] => 0
  | v :: rest =>
    let r := lastPopulatedRow rest
    if r = 0 then (if v = "" then 0 else 1) else r + 1

/-- Number of rows of the identity column, from the data start offset
(row 4) down, matching the ticker case-insensitively. -/
def match_count (colA : List String) (t : String) : Nat :=
  ((colA.drop 3).filter (fun v => decide (norm_ticker v = norm_ticker t))).length

/-- The fallback values map of `run_once` (line 596): the original map
with `raw_json` set to the serialized document, or to the empty string
when that serialization is oversized. -/
def fallback_values_map (vm : List (String × Val)) (j : Val) : List (String × Val) :=
  dset vm "raw_json"
    (Val.str (if is_too_large (safe_str j) then "" else safe_str j))

/-- Outcome of one ticker's write phase: the attempted writes (target
row, cells) in order, and the write that committed, if any. -/
structure UpsertResult : Type where
  attempts : List (Nat × List Val)
  committed : Option (Nat × List Val)

/-- The write-with-one-fallback flow of `run_once` (src/v1.py lines
570-607). `fail1` and `fail2` abstract whether the first and second
`ws.update` calls raise; a failed call commits nothing, so the identity
column — and with it the recomputed append row — is unchanged for the
retry. Overwrites go through `write_row_by_header_order`; appends build
their cells by the `safe_str`-and-blank rule of `append_row_vals`. After
a first failure the `raw_json` fallback map is built and the very same
target row is attempted once more; a second failure ends the ticker's
processing with nothing committed. -/
def write_with_fallback (colA : List String) (headers : List String)
    (vm : List (String × Val)) (j : Val) (t : String) (fail1 fail2 : Bool) :
    UpsertResult :=
  match find_row_for_ticker colA t 4 with
  | some r =>
    let row1 := (write_row_by_header_order headers vm).1
    if fail1 then
      let row2 := (write_row_by_header_order headers (fallback_values_map vm j)).1
      if fail2 then ⟨[(r, row1), (r, row2)], Option.none⟩
      else ⟨[(r, row1), (r, row2)], some (r, row2)⟩
    else ⟨[(r, row1)], some (r, row1)⟩
  | Option.none =>
    let tgt := append_target_row colA
    let row1 := (append_row_vals headers vm).map Val.str
    if fail1 then
      let row2 := (append_row_vals headers (fallback_values_map vm j)).map Val.str
      if fail2 then ⟨[(tgt, row1), (tgt, row2)], Option.none⟩
      else ⟨[(tgt, row1), (tgt, row2)], some (tgt, row2)⟩
    else ⟨[(tgt, row1)], some (tgt, row1)⟩

/-- The second-attempt row contents, as a standalone definition: the
fallback map projected the same way as the first attempt (lines 597-604). -/
def fallback_row (colA : List String) (headers : List String)
    (vm : List (String × Val)) (j : Val) (t : String) : List Val :=
  match find_row_for_ticker colA t 4 with
  | some _ => (write_row_by_header_order headers (fallback_values_map vm j)).1
  | Option.none => (append_row_vals headers (fallback_values_map vm j)).map Val.str

/-- A 50001-character string, one character over `MAX_CELL_LENGTH`. -/
def bigStr : String := String.mk (List.replicate 50001 'a')

/-- The value of one `metric_trends_<k>` column as the source computes it
(src/v1.py lines 424-440): scalar-picking on the located metric-trends
entry when a dict was located, else the raw `data.change_intervals` value
for the same key, else Python `None`. -/
def metric_trend_entry (j : List (String × Val)) (k : String) : Val :=
  match locate_metric_trends j with
  | Val.dict kvs => pick_scalar_from_metric_obj (dgetD kvs k Val.none)
  | _ =>
    match get_nested (Val.dict j) ["data", "change_intervals"] (Val.dict []) with
    | Val.dict ci => dgetD ci k Val.none
    | _ => Val.none

/- ------------------------------------------------------------------
Supporting lemmas about the association-list operations and the row
projection, shared by the claim theorems below.
------------------------------------------------------------------ -/

theorem dget_dset_self (m : List (String × Val)) (k : String) (v : Val) :
    dget (dset m k v) k = some v := by
  induction m with
  | nil => simp [dset, dget]
  | cons hd tl ih =>
    obtain ⟨a, b⟩ := hd
    by_cases h : a = k <;> simp [dset, dget, h, ih]

theorem dget_dset_ne (m : List (String × Val)) (k k' : String) (v : Val)
    (h : k ≠ k') : dget (dset m k v) k' = dget m k' := by
  induction m with
  | nil => simp [dset, dget, h]
  | cons hd tl ih =>
    obtain ⟨a, b⟩ := hd
    by_cases ha : a = k
    · subst ha
      simp [dset, dget, h]
    · simp [dset, dget, ha, ih]

theorem dget_foldl_dset_stable {α : Type} (key : α → String) (f : α → Val)
    (hcoh : ∀ a b, key a = key b → f a = f b) (g : List α)
    (m : List (String × Val)) (x : α) (hm : dget m (key x) = some (f x)) :
    dget (g.foldl (fun m a => dset m (key a) (f a)) m) (key x) = some (f x) := by
  induction g generalizing m with
  | nil => simpa using hm
  | cons a rest ih =>
    simp only [List.foldl_cons]
    apply ih
    by_cases h : key a = key x
    · rw [h, dget_dset_self, hcoh a x h]
    · rw [dget_dset_ne _ _ _ _ h, hm]

theorem dget_foldl_dset_mem {α : Type} (key : α → String) (f : α → Val)
    (hcoh : ∀ a b, key a = key b → f a = f b) (g : List α)
    (m : List (String × Val)) (x : α) (hx : x ∈ g) :
    dget (g.foldl (fun m a => dset m (key a) (f a)) m) (key x) = some (f x) := by
  induction g generalizing m with
  | nil => cases hx
  | cons a rest ih =>
    simp only [List.foldl_cons]
    rcases List.mem_cons.mp hx with hxa | hxr
    · subst hxa
      exact dget_foldl_dset_stable key f hcoh rest _ x (dget_dset_self m (key x) (f x))
    · exact ih _ hxr

theorem dget_foldl_dset_of_ne {α : Type} (key : α → String) (f : α → Val)
    (g : List α) (m : List (String × Val)) (target : String)
    (h : ∀ a ∈ g, key a ≠ target) :
    dget (g.foldl (fun m a => dset m (key a) (f a)) m) target = dget m target := by
  induction g generalizing m with
  | nil => rfl
  | cons a rest ih =>
    simp only [List.foldl_cons]
    rw [ih (dset m (key a) (f a)) (fun a' ha' => h a' (List.mem_cons_of_mem _ ha')),
        dget_dset_ne _ _ _ _ (h a (List.mem_cons_self a rest))]

theorem string_append_left_cancel (p x y : String) (h : p ++ x = p ++ y) : x = y := by
  have hd := congrArg String.data h
  rw [String.data_append, String.data_append] at hd
  exact String.ext (List.append_cancel_left hd)

theorem ci_key_ne_mt_key (x y : String) :
    ("change_intervals_" ++ x) ≠ ("metric_trends_" ++ y) := by
  intro h
  have hd := congrArg String.data h
  rw [String.data_append, String.data_append] at hd
  rw [show "change_intervals_".data = 'c' :: "hange_intervals_".data from rfl,
      show "metric_trends_".data = 'm' :: "etric_trends_".data from rfl] at hd
  simp at hd

theorem write_row_fst_eq_map (headers : List String) (vm : List (String × Val)) :
    (write_row_by_header_order headers vm).1 =
      headers.map (fun h =>
        if h = "ticker" then dgetD vm "ticker" (Val.str "")
        else if is_too_large (safe_str (dgetD vm h (Val.str ""))) then Val.str ""
        else Val.str (safe_str (dgetD vm h (Val.str "")))) := by
  induction headers with
  | nil => rfl
  | cons h rest ih =>
    by_cases ht : h = "ticker"
    · simp [write_row_by_header_order, ht, ih]
    · by_cases hbig : is_too_large (safe_str (dgetD vm h (Val.str ""))) <;>
        simp [write_row_by_header_order, ht, hbig, ih]

theorem write_row_snd_eq_filter (headers : List String) (vm : List (String × Val)) :
    (write_row_by_header_order headers vm).2 =
      headers.filter (fun h =>
        decide (h ≠ "ticker") && is_too_large (safe_str (dgetD vm h (Val.str "")))) := by
  induction headers with
  | nil => rfl
  | cons h rest ih =>
    by_cases ht : h = "ticker"
    · simp [write_row_by_header_order, ht, ih, List.filter]
    · by_cases hbig : is_too_large (safe_str (dgetD vm h (Val.str ""))) <;>
        simp [write_row_by_header_order, ht, hbig, ih, List.filter]

theorem bigStr_length : bigStr.length = 50001 := by
  rw [bigStr, String.length_mk, List.length_replicate]

theorem bigStr_too_large : is_too_large bigStr = true := by
  rw [is_too_large, bigStr_length]
  decide

theorem bigStr_ne_empty : bigStr ≠ "" := by
  intro h
  have := congrArg String.length h
  rw [bigStr_length] at this
  simp at this

/- ------------------------------------------------------------------
Claim theorems.
------------------------------------------------------------------ -/

/-- C1, counterexample: the claim says the empty mapping yields an absent
result that serializes to an empty cell, but `pick_scalar_from_metric_obj`
reaches its serialize-the-whole-mapping fallback and returns the
two-character string of the serialized empty dict, a non-absent value
whose cell text is not empty. -/
theorem C1_counterexample :
    pick_scalar_from_metric_obj (Val.dict []) = Val.str "\x7b\x7d" ∧
    Val.str "\x7b\x7d" ≠ Val.none ∧
    safe_str (Val.str "\x7b\x7d") ≠ "" := by
  refine ⟨rfl, fun h => Val.noConfusion h, fun h => ?_⟩
  have := congrArg String.length h
  exact absurd this (by decide)

/-- C1, amended: scalar values are picked as-is; for a mapping the first
conventional sub-key among value, current, count, latest, v, val whose
value is scalar wins, else the first scalar-valued entry in insertion
order, else the whole mapping is serialized — so the empty mapping yields
the serialized dict text, not an absent value. The stated examples for
non-empty mappings hold. -/
theorem C1_amended : ∀ (b : Bool) (n : Int) (s : String),
    pick_scalar_from_metric_obj (Val.bool b) = Val.bool b ∧
    pick_scalar_from_metric_obj (Val.int n) = Val.int n ∧
    pick_scalar_from_metric_obj (Val.str s) = Val.str s ∧
    pick_scalar_from_metric_obj
      (Val.dict [("value", Val.int 5), ("current", Val.int 9)]) = Val.int 5 ∧
    pick_scalar_from_metric_obj
      (Val.dict [("value", Val.dict []), ("current", Val.int 9)]) = Val.int 9 ∧
    pick_scalar_from_metric_obj (Val.dict [("foo", Val.str "bar")]) = Val.str "bar" ∧
    pick_scalar_from_metric_obj
      (Val.dict [("x", Val.list []), ("y", Val.int 2)]) = Val.int 2 ∧
    pick_scalar_from_metric_obj (Val.dict []) = Val.str "\x7b\x7d" ∧
    pick_scalar_from_metric_obj (Val.dict [("a", Val.none)]) =
      Val.str "\x7b\"a\": null\x7d" :=
  fun _ _ _ => ⟨rfl, rfl, rfl, rfl, rfl, rfl, rfl, rfl, rfl⟩

/-- C10: when projecting a values map through the header, the cell for
every position holding the `ticker` column is the raw map value (default
the empty string), with no stringification and no oversize blanking. -/
theorem C10_ticker_column_raw :
    ∀ (headers : List String) (vm : List (String × Val)) (i : Nat),
    headers[i]? = some "ticker" →
    ((write_row_by_header_order headers vm).1)[i]? =
      some (dgetD vm "ticker" (Val.str "")) := by
  intro headers vm i h
  rw [write_row_fst_eq_map, List.getElem?_map, h]
  simp

/-- C10 witness: a map with no ticker entry writes the empty string into
the identity cell, and an oversized ticker value is written in full. -/
theorem C10_witness :
    ((write_row_by_header_order ["ticker"] []).1)[0]? = some (Val.str "") ∧
    ((write_row_by_header_order ["ticker"] [("ticker", Val.str bigStr)]).1)[0]? =
      some (Val.str bigStr) :=
  ⟨C10_ticker_column_raw ["ticker"] [] 0 rfl,
   C10_ticker_column_raw ["ticker"] [("ticker", Val.str bigStr)] 0 rfl⟩

/-- C8, counterexample: a values map whose single field `ticker` has an
oversized serialization does not get that cell written empty — the ticker
column is exempt from the oversize check and the oversized value is
written in full, contradicting the claim's universal quantification over
values maps. -/
theorem C8_counterexample :
    is_too_large (safe_str (dgetD [("ticker", Val.str bigStr)] "ticker" (Val.str ""))) =
      true ∧
    (write_row_by_header_order ["ticker"] [("ticker", Val.str bigStr)]).1 =
      [Val.str bigStr] ∧
    Val.str bigStr ≠ Val.str "" := by
  refine ⟨bigStr_too_large, rfl, fun h => ?_⟩
  injection h with h'
  exact bigStr_ne_empty h'

/-- C8, amended: when exactly one non-ticker field of the values map has
an oversized serialization, the written row blanks exactly that field's
cells, writes every other non-ticker cell as its normal serialization and
the ticker cell raw, keeps the full header length (no truncation, no
rejection), and the warning list names exactly the oversized header. -/
theorem C8_oversize_single_cell (headers : List String) (vm : List (String × Val))
    (h0 : String) (hne : h0 ≠ "ticker")
    (hbig : is_too_large (safe_str (dgetD vm h0 (Val.str ""))) = true)
    (hothers : ∀ h ∈ headers, h ≠ h0 → h ≠ "ticker" →
      is_too_large (safe_str (dgetD vm h (Val.str ""))) = false) :
    (write_row_by_header_order headers vm).1 =
      headers.map (fun h =>
        if h = "ticker" then dgetD vm "ticker" (Val.str "")
        else if h = h0 then Val.str ""
        else Val.str (safe_str (dgetD vm h (Val.str "")))) ∧
    (write_row_by_header_order headers vm).2 =
      headers.filter (fun h => decide (h = h0)) ∧
    (write_row_by_header_order headers vm).1.length = headers.length := by
  refine ⟨?_, ?_, ?_⟩
  · rw [write_row_fst_eq_map]
    apply List.map_congr_left
    intro h hh
    by_cases ht : h = "ticker"
    · subst ht
      have hth : ¬ ("ticker" = h0) := fun hx => hne hx.symm
      simp [hth]
    · by_cases hh0 : h = h0
      · subst hh0
        simp [ht, hbig]
      · simp [ht, hh0, hothers h hh hh0 ht]
  · rw [write_row_snd_eq_filter]
    apply List.filter_congr
    intro h hh
    by_cases ht : h = "ticker"
    · subst ht
      have hth : ¬ ("ticker" = h0) := fun hx => hne hx.symm
      simp [hth]
    · by_cases hh0 : h = h0
      · subst hh0
        simp [ht, hbig]
      · simp [ht, hh0, hothers h hh hh0 ht]
  · rw [write_row_fst_eq_map]
    simp

/-- C8 witness: header `ticker`, `a`, `b` with an oversized `a` value —
the row is `ticker` raw, `a` blanked, `b` normal, and exactly `a` is
warned. -/
theorem C8_witness :
    (write_row_by_header_order ["ticker", "a", "b"]
      [("ticker", Val.str "BTC"), ("a", Val.str bigStr)]).1 =
      [Val.str "BTC", Val.str "", Val.str ""] ∧
    (write_row_by_header_order ["ticker", "a", "b"]
      [("ticker", Val.str "BTC"), ("a", Val.str bigStr)]).2 = ["a"] := by
  have H := C8_oversize_single_cell ["ticker", "a", "b"]
    [("ticker", Val.str "BTC"), ("a", Val.str bigStr)] "a"
    (by decide) bigStr_too_large
    (by
      intro h hh h1 h2
      fin_cases hh
      · exact absurd rfl h2
      · exact absurd rfl h1
      · rfl)
  exact ⟨H.1, H.2.1⟩

/-- C5: reconciling a header against candidates that are all already
present returns the header unchanged with no store write, and a second
reconcile of the same candidate list against the first call's result is
always such a no-op — so both calls yield the identical header and the
second never writes. -/
theorem append_new_headers_fst_ext (cur cand : List String) :
    ∃ ext, (append_new_headers cur cand).1 = cur ++ ext := by
  simp only [append_new_headers]
  split
  · exact ⟨[], by simp⟩
  · exact ⟨_, rfl⟩

theorem mem_append_new_headers_fst (cur cand : List String) (h : String)
    (hh : h ∈ cand) : h ∈ (append_new_headers cur cand).1 := by
  simp only [append_new_headers]
  split
  · next he =>
      have hnil : cand.filter (fun x => decide (x ∉ cur)) = [] :=
        List.isEmpty_iff.mp he
      rw [List.filter_eq_nil_iff] at hnil
      have := hnil h hh
      simpa using this
  · by_cases hc : h ∈ cur
    · exact List.mem_append.mpr (Or.inl hc)
    · exact List.mem_append.mpr (Or.inr (List.mem_filter.mpr ⟨hh, by simpa using hc⟩))

theorem C5_reconcile_noop :
    (∀ cur cand : List String, (∀ h ∈ cand, h ∈ cur) →
      append_new_headers cur cand = (cur, false)) ∧
    (∀ cur cand : List String,
      append_new_headers (append_new_headers cur cand).1 cand =
        ((append_new_headers cur cand).1, false)) := by
  have part1 : ∀ cur cand : List String, (∀ h ∈ cand, h ∈ cur) →
      append_new_headers cur cand = (cur, false) := by
    intro cur cand hall
    have hfil : cand.filter (fun h => decide (h ∉ cur)) = [] := by
      rw [List.filter_eq_nil_iff]
      intro a ha
      simp [hall a ha]
    simp only [append_new_headers]
    rw [hfil]
    rfl
  refine ⟨part1, fun cur cand => part1 _ _ ?_⟩
  intro h hh
  exact mem_append_new_headers_fst cur cand h hh

/-- C5 witness: a candidate already present is a no-op with no write. -/
theorem C5_witness :
    append_new_headers ["ticker", "alerts"] ["alerts"] = (["ticker", "alerts"], false) :=
  C5_reconcile_noop.1 ["ticker", "alerts"] ["alerts"] (by decide)

/-- C9: the flattener's output does not depend on the discovered-key
list passed as its parameter at all — the body never reads it (first
conjunct) — and two invocations with the same document and the same
passed list produce different values maps when the module global
`change_interval_keys_local` differs between them, refuting the claim
that the result depends on nothing but the two spec inputs. -/
theorem C9_flattener_reads_global :
    (∀ (j : List (String × Val)) (p p' g : List String),
      build_values_map_for_ticker j p g = build_values_map_for_ticker j p' g) ∧
    dget (build_values_map_for_ticker
      [("data", Val.dict [("change_intervals", Val.dict [("z", Val.int 7)])])] [] ["z"])
      "change_intervals_z" = some (Val.int 7) ∧
    dget (build_values_map_for_ticker
      [("data", Val.dict [("change_intervals", Val.dict [("z", Val.int 7)])])] [] [])
      "change_intervals_z" = Option.none :=
  ⟨fun _ _ _ _ => rfl, rfl, rfl⟩

/-- C3: at the failing input the flattener, given the discovered key
`h1` as its parameter but an empty module-global list, produces no
`change_intervals_h1` entry at all (first two conjuncts evaluate the
code at the failing input and at the call-site-consistent input); the
third conjunct proves the claimed per-key copy behaviour whenever the
key is in the list the loop actually iterates — the module global. -/
theorem C3_change_interval_entries :
    dget (build_values_map_for_ticker
      [("data", Val.dict [("change_intervals", Val.dict [("h1", Val.int 3)])])] ["h1"] [])
      "change_intervals_h1" = Option.none ∧
    dget (build_values_map_for_ticker
      [("data", Val.dict [("change_intervals", Val.dict [("h1", Val.int 3)])])] [] ["h1"])
      "change_intervals_h1" = some (Val.int 3) ∧
    (∀ (j : List (String × Val)) (p g : List String) (ck : String), ck ∈ g →
      dget (build_values_map_for_ticker j p g) ("change_intervals_" ++ ck) =
        some (match get_nested (Val.dict j) ["data", "change_intervals"] (Val.dict []) with
              | Val.dict kvs => dgetD kvs ck Val.none
              | _ => Val.none)) := by
  refine ⟨rfl, rfl, ?_⟩
  intro j p g ck hck
  unfold build_values_map_for_ticker
  exact dget_foldl_dset_mem (fun ck => "change_intervals_" ++ ck)
    (fun ck => match get_nested (Val.dict j) ["data", "change_intervals"] (Val.dict []) with
               | Val.dict kvs => dgetD kvs ck Val.none
               | _ => Val.none)
    (fun a b h => by rw [string_append_left_cancel _ _ _ h]) g _ ck hck

/-- C3 witness: with the global list holding the discovered key, the
entry is copied verbatim from `data.change_intervals`. -/
theorem C3_witness :
    dget (build_values_map_for_ticker
      [("data", Val.dict [("change_intervals", Val.dict [("h1", Val.int 3)])])] [] ["h1"])
      ("change_intervals_" ++ "h1") = some (Val.int 3) := by
  have H := C3_change_interval_entries.2.2
    [("data", Val.dict [("change_intervals", Val.dict [("h1", Val.int 3)])])] [] ["h1"]
    "h1" (by decide)
  simpa using H

theorem append_new_headers_fst_nodup (cur cand : List String)
    (h1 : cur.Nodup) (h2 : cand.Nodup) : (append_new_headers cur cand).1.Nodup := by
  simp only [append_new_headers]
  split
  · simpa using h1
  · refine List.Nodup.append h1 (h2.filter _) ?_
    intro a hac haf
    have := (List.mem_filter.mp haf).2
    simp at this
    exact this hac

theorem reconcile_seq_cons (init c : List String) (rest : List (List String)) :
    reconcile_seq init (c :: rest) = reconcile_seq (append_new_headers init c).1 rest := rfl

theorem reconcile_seq_ext : ∀ (cands : List (List String)) (init : List String),
    ∃ ext, reconcile_seq init cands = init ++ ext := by
  intro cands
  induction cands with
  | nil => exact fun init => ⟨[], by simp [reconcile_seq]⟩
  | cons c rest ih =>
    intro init
    obtain ⟨e1, h1⟩ := append_new_headers_fst_ext init c
    obtain ⟨e2, h2⟩ := ih (append_new_headers init c).1
    exact ⟨e1 ++ e2, by rw [reconcile_seq_cons, h2, h1, List.append_assoc]⟩

theorem reconcile_seq_nodup : ∀ (cands : List (List String)) (init : List String),
    init.Nodup → (∀ c ∈ cands, c.Nodup) → (reconcile_seq init cands).Nodup := by
  intro cands
  induction cands with
  | nil => intro init h _; simpa [reconcile_seq] using h
  | cons c rest ih =>
    intro init h1 h2
    rw [reconcile_seq_cons]
    exact ih _ (append_new_headers_fst_nodup init c h1 (h2 c (List.mem_cons_self c rest)))
      (fun d hd => h2 d (List.mem_cons_of_mem _ hd))

theorem reconcile_seq_append_eq (init : List String) (c1 c2 : List (List String)) :
    reconcile_seq init (c1 ++ c2) = reconcile_seq (reconcile_seq init c1) c2 := by
  simp [reconcile_seq, List.foldl_append]

/-- C6, counterexample: a single reconcile call whose candidate list
holds the same new name twice appends it twice, so a duplicate-free
header acquires duplicates. -/
theorem C6_counterexample :
    reconcile_seq ["ticker"] [["alerts", "alerts"]] = ["ticker", "alerts", "alerts"] ∧
    List.Nodup ["ticker"] ∧
    ¬ List.Nodup ["ticker", "alerts", "alerts"] :=
  ⟨rfl, by decide, by decide⟩

/-- C6, amended: across any sequence of reconcile calls the header only
grows by appending at the end (every earlier header is a prefix of every
later one, witnessed by the appended extension), the column count never
decreases, and — provided each candidate list is itself duplicate-free,
as every candidate list the run loop builds is — a duplicate-free header
never acquires duplicates. -/
theorem C6_header_monotonic : ∀ (init : List String) (cands cands2 : List (List String)),
    (∃ ext, reconcile_seq init (cands ++ cands2) = reconcile_seq init cands ++ ext) ∧
    (reconcile_seq init cands).length ≤ (reconcile_seq init (cands ++ cands2)).length ∧
    (List.Nodup init → (∀ c ∈ cands ++ cands2, List.Nodup c) →
      List.Nodup (reconcile_seq init (cands ++ cands2))) := by
  intro init cands cands2
  obtain ⟨ext, hext⟩ := reconcile_seq_ext cands2 (reconcile_seq init cands)
  rw [reconcile_seq_append_eq]
  refine ⟨⟨ext, hext⟩, by rw [hext]; simp, ?_⟩
  intro h1 h2
  exact reconcile_seq_nodup cands2 _
    (reconcile_seq_nodup cands init h1 (fun c hc => h2 c (List.mem_append.mpr (Or.inl hc))))
    (fun c hc => h2 c (List.mem_append.mpr (Or.inr hc)))

/-- C6 witness: two duplicate-free reconcile calls keep the header
duplicate-free. -/
theorem C6_witness :
    List.Nodup (reconcile_seq ["ticker"] ([["alerts"]] ++ [["asset_id"]])) :=
  (C6_header_monotonic ["ticker"] [["alerts"]] [["asset_id"]]).2.2 (by decide) (by decide)

/-- C2, counterexample: with the first write failing and the retry
succeeding, the committed retry row still carries the full values map —
here the non-ticker cell `asset_price` holds its serialized value, not an
empty one — refuting the claim that the retry payload keeps only the
ticker identity. -/
theorem C2_counterexample :
    (write_with_fallback ["tok", "ts", "hdr", "BTC"] ["ticker", "asset_price"]
      [("ticker", Val.str "BTC"), ("asset_price", Val.int 5)]
      (Val.dict []) "BTC" true false).committed =
      some (4, [Val.str "BTC", Val.str "5"]) ∧
    Val.str "5" ≠ Val.str "" := by
  refine ⟨rfl, fun h => ?_⟩
  injection h with h'
  exact absurd h' (by decide)

/-- C2, amended: the first write failure triggers exactly one retry; the
retry targets the very same row as the first attempt; its payload is the
original values map with a `raw_json` field added (the serialized
document, or empty when oversized) and with every oversized cell blanked
at projection time; nothing is committed exactly when both attempts fail,
and there is never a third attempt. -/
theorem C2_retry_behaviour : ∀ (colA headers : List String) (vm : List (String × Val))
    (j : Val) (t : String) (fail1 fail2 : Bool),
    (write_with_fallback colA headers vm j t fail1 fail2).attempts.length =
      (if fail1 then 2 else 1) ∧
    ((write_with_fallback colA headers vm j t fail1 fail2).attempts.all
      (fun a => a.1 == (upsert_row_target colA t).1)) = true ∧
    (write_with_fallback colA headers vm j t fail1 fail2).committed.isNone =
      (fail1 && fail2) ∧
    (write_with_fallback colA headers vm j t fail1 fail2).attempts[1]? =
      (if fail1 then
        some ((upsert_row_target colA t).1, fallback_row colA headers vm j t)
       else Option.none) := by
  intro colA headers vm j t f1 f2
  cases hfr : find_row_for_ticker colA t 4 <;> cases f1 <;> cases f2 <;>
    simp [write_with_fallback, upsert_row_target, fallback_row, append_target_row, hfr]

theorem dget_mt_fold (f : String → Val) (m_pre : List (String × Val)) (k : String)
    (hk : k ∈ METRIC_TRENDS_KEYS) :
    dget (METRIC_TRENDS_KEYS.foldl
      (fun m k' => dset m ("metric_trends_" ++ k') (f k')) m_pre)
      ("metric_trends_" ++ k) = some (f k) :=
  dget_foldl_dset_mem (fun k' => "metric_trends_" ++ k') f
    (fun a b h => by rw [string_append_left_cancel _ _ _ h])
    METRIC_TRENDS_KEYS m_pre k hk

/-- C7, counterexample: the claim's stated order tries the document root
first, so a document whose root holds `metric_trends` (here the empty
dict) should take its metric trends from the root and leave
`metric_trends_sentiment` absent; the code's Python `or` skips the falsy
root value and reads `data.metric_trends` instead, yielding 5. -/
theorem C7_counterexample :
    dget [("metric_trends", Val.dict []),
          ("data", Val.dict [("metric_trends", Val.dict [("sentiment", Val.int 5)])])]
      "metric_trends" = some (Val.dict []) ∧
    dget (build_values_map_for_ticker
      [("metric_trends", Val.dict []),
       ("data", Val.dict [("metric_trends", Val.dict [("sentiment", Val.int 5)])])] [] [])
      "metric_trends_sentiment" = some (Val.int 5) :=
  ⟨rfl, rfl⟩

set_option maxHeartbeats 1600000 in
/-- C7, amended: every `metric_trends_<k>` entry of the values map equals
the `metric_trend_entry` extraction — the located object is the root
value only when truthy (a falsy root defers to `data.metric_trends`),
the recursive document search runs only when that combination is exactly
absent, and whenever the located value is not a mapping the raw
`data.change_intervals` value is used, with absent as the final default. -/
theorem C7_metric_trend_entries :
    ∀ (j : List (String × Val)) (p g : List String) (k : String),
    k ∈ METRIC_TRENDS_KEYS →
    dget (build_values_map_for_ticker j p g) ("metric_trends_" ++ k) =
      some (metric_trend_entry j k) := by
  intro j p g k hk
  simp only [build_values_map_for_ticker, metric_trend_entry]
  rw [dget_foldl_dset_of_ne (fun ck => "change_intervals_" ++ ck)
    (fun ck =>
      match get_nested (Val.dict j) ["data", "change_intervals"] (Val.dict []) with
      | Val.dict kvs => dgetD kvs ck Val.none
      | _ => Val.none) g _ _
    (fun a _ => ci_key_ne_mt_key a k)]
  cases hmt : locate_metric_trends j
  case dict kvs => exact dget_mt_fold _ _ k hk
  all_goals cases hci : get_nested (Val.dict j) ["data", "change_intervals"] (Val.dict []) <;>
    exact dget_mt_fold _ _ k hk

/-- C7 witness: a conventional nested metric object at the root is
scalar-picked into its column. -/
theorem C7_witness :
    dget (build_values_map_for_ticker
      [("metric_trends", Val.dict [("galaxy_score", Val.dict [("value", Val.int 42)])])]
      [] []) ("metric_trends_" ++ "galaxy_score") = some (Val.int 42) :=
  C7_metric_trend_entries
    [("metric_trends", Val.dict [("galaxy_score", Val.dict [("value", Val.int 42)])])]
    [] [] "galaxy_score" (by decide)

theorem find_row_aux_spec : ∀ (rows : List String) (key : String) (i r : Nat),
    find_row_aux rows key i = some r →
    i ≤ r ∧ r - i < rows.length ∧
    (∃ v, rows[r - i]? = some v ∧ norm_ticker v = key) ∧
    (∀ jj, jj < r - i → ∀ v, rows[jj]? = some v → norm_ticker v ≠ key) := by
  intro rows
  induction rows with
  | nil => intro key i r h; simp [find_row_aux] at h
  | cons v rest ih =>
    intro key i r h
    rw [find_row_aux] at h
    by_cases hv : norm_ticker v = key
    · rw [if_pos hv] at h
      injection h with h'
      subst h'
      refine ⟨Nat.le_refl i, by simp, ⟨v, by simp, hv⟩, ?_⟩
      intro jj hjj
      exact absurd hjj (by omega)
    · rw [if_neg hv] at h
      obtain ⟨h1, h2, ⟨w, hw1, hw2⟩, h4⟩ := ih key (i + 1) r h
      refine ⟨by omega, ?_, ⟨w, ?_, hw2⟩, ?_⟩
      · simp only [List.length_cons]
        omega
      · have hri : r - i = (r - (i + 1)) + 1 := by omega
        rw [hri, List.getElem?_cons_succ]
        exact hw1
      · intro jj hjj u hu
        cases jj with
        | zero =>
          rw [List.getElem?_cons_zero] at hu
          injection hu with hu'
          subst hu'
          exact hv
        | succ jj' =>
          rw [List.getElem?_cons_succ] at hu
          have : jj' < r - (i + 1) := by omega
          exact h4 jj' this u hu

theorem find_row_aux_none_spec : ∀ (rows : List String) (key : String) (i : Nat),
    find_row_aux rows key i = Option.none → ∀ v ∈ rows, norm_ticker v ≠ key := by
  intro rows
  induction rows with
  | nil => intro key i _ v hv; cases hv
  | cons x rest ih =>
    intro key i h v hv
    rw [find_row_aux] at h
    by_cases hx : norm_ticker x = key
    · rw [if_pos hx] at h
      cases h
    · rw [if_neg hx] at h
      rcases List.mem_cons.mp hv with rfl | hvr
      · exact hx
      · exact ih key (i + 1) h v hvr

theorem lastPopulatedRow_le_length : ∀ colA : List String,
    lastPopulatedRow colA ≤ colA.length := by
  intro colA
  induction colA with
  | nil => simp [lastPopulatedRow]
  | cons v rest ih =>
    simp only [lastPopulatedRow, List.length_cons]
    split_ifs <;> omega

theorem length_filter_set (p : String → Bool) : ∀ (l : List String) (i : Nat) (a : String),
    (∀ v, l[i]? = some v → p v = p a) →
    ((l.set i a).filter p).length = (l.filter p).length := by
  intro l
  induction l with
  | nil => intro i a _; simp
  | cons x rest ih =>
    intro i a h
    cases i with
    | zero =>
      have hpx : p x = p a := h x (by simp)
      rw [show (x :: rest).set 0 a = a :: rest from rfl]
      rw [List.filter_cons, List.filter_cons, hpx]
      by_cases hpa : p a = true <;> simp [hpa]
    | succ n =>
      rw [show (x :: rest).set (n + 1) a = x :: rest.set n a from rfl]
      rw [List.filter_cons, List.filter_cons]
      have hrec := ih n a (fun v hv => h v (by simpa using hv))
      by_cases hpx : p x = true <;> simp [hpx, hrec]

theorem match_count_set (colA : List String) (r : Nat) (t : String) (hr : 4 ≤ r)
    (hmatch : ∀ v, colA[r - 1]? = some v → norm_ticker v = norm_ticker t) :
    match_count (colA.set (r - 1) t) t = match_count colA t := by
  unfold match_count
  rw [List.drop_set, if_neg (by omega : ¬ (r - 1 < 3))]
  apply length_filter_set
  intro v hv
  rw [List.getElem?_drop] at hv
  have h31 : 3 + (r - 1 - 3) = r - 1 := by omega
  rw [h31] at hv
  rw [hmatch v hv]

/-- C4: when the ticker is already present in the identity column, the
upsert targets exactly the first (lowest-index) case-insensitive match at
or after row 4, overwrites that row in place — same column length, no new
matching row, every other row untouched; when it is absent, the upsert
targets the append row, which lies strictly after the last populated row,
and no matching row existed. -/
theorem C4_row_targeting : ∀ (colA : List String) (t : String),
    (∀ r, find_row_for_ticker colA t 4 = some r →
      upsert_row_target colA t = (r, true) ∧
      4 ≤ r ∧ r ≤ colA.length ∧
      upsert_colA colA t = colA.set (r - 1) t ∧
      (upsert_colA colA t).length = colA.length ∧
      match_count (upsert_colA colA t) t = match_count colA t ∧
      (∀ i, 4 ≤ i → i < r → ∀ v, colA[i - 1]? = some v →
        norm_ticker v ≠ norm_ticker t) ∧
      (∀ i, i ≠ r - 1 → (upsert_colA colA t)[i]? = colA[i]?)) ∧
    (find_row_for_ticker colA t 4 = Option.none →
      upsert_row_target colA t = (append_target_row colA, false) ∧
      lastPopulatedRow colA < append_target_row colA ∧
      match_count colA t = 0) := by
  intro colA t
  constructor
  · intro r hr
    obtain ⟨h4r, hlt, ⟨w, hw1, hw2⟩, hnomatch⟩ :=
      find_row_aux_spec (colA.drop 3) (norm_ticker t) 4 r hr
    have hdl := List.length_drop 3 colA
    have hrlen : r ≤ colA.length := by omega
    have hcolr : colA[r - 1]? = some w := by
      rw [List.getElem?_drop] at hw1
      have h34 : 3 + (r - 4) = r - 1 := by omega
      rwa [h34] at hw1
    have hmatchall : ∀ v, colA[r - 1]? = some v → norm_ticker v = norm_ticker t := by
      intro v hv
      rw [hcolr] at hv
      injection hv with hv'
      subst hv'
      exact hw2
    have hset : upsert_colA colA t = colA.set (r - 1) t := by
      simp [upsert_colA, hr]
    refine ⟨by simp [upsert_row_target, hr], by omega, hrlen, hset, ?_, ?_, ?_, ?_⟩
    · rw [hset, List.length_set]
    · rw [hset]
      exact match_count_set colA r t (by omega) hmatchall
    · intro i hi4 hir v hv
      have hidx : (colA.drop 3)[i - 4]? = some v := by
        rw [List.getElem?_drop]
        have h34 : 3 + (i - 4) = i - 1 := by omega
        rw [h34]
        exact hv
      exact hnomatch (i - 4) (by omega) v hidx
    · intro i hi
      rw [hset]
      exact List.getElem?_set_ne (fun hx => hi hx.symm)
  · intro hnone
    refine ⟨by simp [upsert_row_target, hnone], ?_, ?_⟩
    · have hle := lastPopulatedRow_le_length colA
      have hmax : colA.length + 1 ≤ max 4 (colA.length + 1) := le_max_right _ _
      simp only [append_target_row]
      omega
    · have hnil : (colA.drop 3).filter
          (fun v => decide (norm_ticker v = norm_ticker t)) = [] := by
        rw [List.filter_eq_nil_iff]
        intro a ha
        have := find_row_aux_none_spec (colA.drop 3) (norm_ticker t) 4 hnone a ha
        simpa using this
      rw [match_count, hnil]
      rfl

/-- C4 witness: a present ticker (matched case-insensitively) is
overwritten in place at row 4 with no length change and no new matching
row. -/
theorem C4_witness :
    upsert_row_target ["tok", "ts", "hdr", "BTC", "ETH"] "Btc" = (4, true) ∧
    (upsert_colA ["tok", "ts", "hdr", "BTC", "ETH"] "Btc").length = 5 ∧
    match_count (upsert_colA ["tok", "ts", "hdr", "BTC", "ETH"] "Btc") "Btc" =
      match_count ["tok", "ts", "hdr", "BTC", "ETH"] "Btc" := by
  have H := (C4_row_targeting ["tok", "ts", "hdr", "BTC", "ETH"] "Btc").1 4 rfl
  exact ⟨H.1, H.2.2.2.2.1, H.2.2.2.2.2.1⟩

end LunarCrush
